import Mathlib

/-!
Verification development for the YoYFinance expense tracker (src/index.tsx).

The embedding follows the source closely:
* JS numbers are modeled as exact rationals.
* Dates are stored as strings on the record, exactly as in the source; the
  views read them through an ISO calendar-date parser standing in for the
  behavior of the JS Date constructor on well-formed date strings.
* The persisted state is modeled at the level of the parsed JSON value tree,
  together with an explicit constructor for the parse-failure outcome.
-/

namespace YoYFinance

/-- Canonical transaction record, mirroring the Expense interface. -/
structure Expense where
  id : String
  date : String
  description : String
  amount : ℚ
  category : String
  account : String
deriving DecidableEq

/-- The fixed category enumeration CATEGORIES. -/
def CATEGORIES : List String :=
  ["Groceries", "Rent", "Utilities", "Transportation", "Entertainment",
   "Healthcare", "Shopping", "Dining", "Travel", "Subscriptions",
   "Income", "Transfer", "Other"]

/-- JS fallback a || b on an optional string: undefined and "" are falsy. -/
def jsOrString (a : Option String) (b : String) : String :=
  match a with
  | none => b
  | some s => if s = "" then b else s

/-- Gregorian leap-year rule, as implemented by the JS Date object. -/
def isLeap (y : ℤ) : Bool := y % 4 == 0 && (y % 100 != 0 || y % 400 == 0)

/-- Number of days of the 1-based month m in year y. -/
def daysInMonth (y : ℤ) (m : ℕ) : ℕ :=
  if m = 2 then (if isLeap y then 29 else 28)
  else if m = 4 ∨ m = 6 ∨ m = 9 ∨ m = 11 then 30 else 31

/-- A calendar date; month is 0-based as returned by getMonth, day is 1-based. -/
structure CalDate where
  year : ℤ
  month : ℕ
  day : ℕ
deriving DecidableEq

/-- Splitting a character list on the minus sign, as String.split does. -/
def splitDash : List Char → List (List Char)
  | [] => [[]]
  | c :: cs =>
    if c = '-' then [] :: splitDash cs
    else
      match splitDash cs with
      | [] => [[c]]
      | g :: gs => (c :: g) :: gs

/-- Value of a list of decimal digit characters. -/
def digitsVal (ds : List Char) : ℕ :=
  ds.foldl (fun n c => 10 * n + (c.toNat - 48)) 0

/-- Numeric reading of a nonempty all-digit character list. -/
def digitsToNat? (cs : List Char) : Option ℕ :=
  if cs ≠ [] ∧ cs.all Char.isDigit then some (digitsVal cs) else none

/-- Reading of a date string by the views (new Date(s) on ISO y-m-d input);
    an out-of-range or non-numeric string yields none (an invalid date, whose
    year and month match no selected year or month). -/
def parseDate (s : String) : Option CalDate :=
  match splitDash s.data with
  | [ys, ms, ds] =>
    match digitsToNat? ys, digitsToNat? ms, digitsToNat? ds with
    | some y, some m, some d =>
      if 1 ≤ m ∧ m ≤ 12 ∧ 1 ≤ d ∧ d ≤ daysInMonth (y : ℤ) m then
        some ⟨(y : ℤ), m - 1, d⟩
      else none
    | _, _, _ => none
  | _ => none

/-- getFullYear of the date of a record, none for an invalid date. -/
def yearOf (e : Expense) : Option ℤ := (parseDate e.date).map CalDate.year

/-- getMonth (0-based) of the date of a record. -/
def monthOf (e : Expense) : Option ℕ := (parseDate e.date).map CalDate.month

/-- getDayOfYear: January 1 = 1, December 31 = 365, or 366 in a leap year. -/
def dayOfYear (c : CalDate) : ℕ :=
  (List.range c.month).foldl (fun acc m => acc + daysInMonth c.year (m + 1)) 0 + c.day

/-- Day of year of the date of a record. -/
def dayOf (e : Expense) : Option ℕ := (parseDate e.date).map dayOfYear

/-- reduce((sum, e) => sum + e.amount, 0). -/
def sumAmounts (l : List Expense) : ℚ := (l.map Expense.amount).sum

/-- parseFloat(x.toFixed(2)): rounding to two decimals, ties to the larger value. -/
def roundTo2 (q : ℚ) : ℚ := (round (q * 100) : ℤ) / 100

/-- parseFloat(x.toFixed(0)): rounding to an integer, ties to the larger value. -/
def roundTo0 (q : ℚ) : ℚ := (round q : ℤ)

/-- Per (year, month) sum computed inside SeasonalityChart, before the
    two-decimal rounding applied when the total is stored into a chart entry. -/
def seasonalityTotal (expenses : List Expense) (y : ℤ) (m : ℕ) : ℚ :=
  sumAmounts (expenses.filter fun e => decide (yearOf e = some y ∧ monthOf e = some m))

/-- The value SeasonalityChart stores into the chart entry for (y, m). -/
def seasonalityEntry (expenses : List Expense) (y : ℤ) (m : ℕ) : ℚ :=
  roundTo2 (seasonalityTotal expenses y m)

/-- Cell of the intensity heatmap grid: the same filter-and-reduce as the
    seasonality view, stored unrounded into gridData. -/
def heatmapCell (expenses : List Expense) (y : ℤ) (m : ℕ) : ℚ :=
  sumAmounts (expenses.filter fun e => decide (yearOf e = some y ∧ monthOf e = some m))

/-- Amount placed into slot d of the 367-entry daily array of
    PaceOfSpendingChart for year y (before the cumulative pass). -/
def paceDayTotal (expenses : List Expense) (y : ℤ) (d : ℕ) : ℚ :=
  sumAmounts ((expenses.filter fun e => decide (yearOf e = some y)).filter
    fun e => decide (dayOf e = some d))

/-- Value of the cumulative array at index d after the forward-fill loop
    (curr += arr[i]). -/
def paceCumul (expenses : List Expense) (y : ℤ) : ℕ → ℚ
  | 0 => paceDayTotal expenses y 0
  | d + 1 => paceCumul expenses y d + paceDayTotal expenses y (d + 1)

/-- The chart entry for year y at sampled day d: parseFloat of toFixed(0). -/
def paceEntry (expenses : List Expense) (y : ℤ) (d : ℕ) : ℚ :=
  roundTo0 (paceCumul expenses y d)

/-- The 74 sampled days of the pace chart: 0, 5, ..., 365. -/
def paceSampleDays : List ℕ := (List.range 74).map (fun i => i * 5)

/-- Five-number summary record returned by getBoxPlotData. -/
structure BoxPlotData where
  min : ℚ
  q1 : ℚ
  median : ℚ
  q3 : ℚ
  max : ℚ
deriving DecidableEq

/-- getBoxPlotData: zeros on empty input, otherwise floor-division quantile
    indices into the ascending sort of the data. -/
def getBoxPlotData (data : List ℚ) : BoxPlotData :=
  if data.length = 0 then ⟨0, 0, 0, 0, 0⟩
  else
    let sorted := data.mergeSort (fun a b => decide (a ≤ b))
    ⟨sorted.getD 0 0, sorted.getD (sorted.length / 4) 0,
     sorted.getD (sorted.length / 2) 0, sorted.getD (sorted.length * 3 / 4) 0,
     sorted.getD (sorted.length - 1) 0⟩

/-- Per-transaction amounts of a given year, as collected by TransactionBoxPlot. -/
def yearAmounts (expenses : List Expense) (y : ℤ) : List ℚ :=
  (expenses.filter fun e => decide (yearOf e = some y)).map Expense.amount

/-- The box-plot datum of year y in TransactionBoxPlot. -/
def transactionBoxPlot (expenses : List Expense) (y : ℤ) : BoxPlotData :=
  getBoxPlotData (yearAmounts expenses y)

/-- One row of the CategoryComparisonChart data: the category label and the
    entry values keyed by year. -/
structure CatRow where
  category : String
  totals : List (ℤ × ℚ)
deriving DecidableEq

/-- The per (category, year) entry value of CategoryComparisonChart:
    parseFloat(filter-reduce total toFixed(2)). -/
def catTotal (expenses : List Expense) (cat : String) (y : ℤ) : ℚ :=
  roundTo2 (sumAmounts (expenses.filter fun e =>
    decide (e.category = cat ∧ yearOf e = some y)))

/-- The row built for one category by CategoryComparisonChart. -/
def catRowOf (expenses : List Expense) (years : List ℤ) (cat : String) : CatRow :=
  ⟨cat, years.map fun y => (y, catTotal expenses cat y)⟩

/-- Reading entry[y] from a row, with the JS (value || 0) fallback for a
    missing key. -/
def rowVal (r : CatRow) (y : ℤ) : ℚ := (r.totals.lookup y).getD 0

/-- The data list of CategoryComparisonChart: one row per fixed category,
    rows kept when some selected year has a strictly positive entry, sorted
    descending by the entry of years[0]. -/
def categoryComparisonData (expenses : List Expense) (years : List ℤ) : List CatRow :=
  ((CATEGORIES.map (catRowOf expenses years)).filter fun r =>
      years.any fun y => decide (0 < rowVal r y)).mergeSort
    fun a b => decide (rowVal b (years.headD 0) ≤ rowVal a (years.headD 0))

/-! Import pipeline: finishImport of src/index.tsx. -/

/-- Decimal digit character of d. -/
def charOfDigit (d : ℕ) : Char := Char.ofNat (48 + d)

/-- Decimal rendering of a natural number, as a JS template literal renders
    an integer-valued number. -/
def natChars (n : ℕ) : List Char :=
  if n = 0 then ['0'] else (Nat.digits 10 n).reverse.map charOfDigit

/-- The generated record id: the template literal txn-t-i for timestamp t
    (Date.now()) and row index i. -/
def mkId (t i : ℕ) : String :=
  String.mk ("txn-".data ++ natChars t ++ '-' :: natChars i)

/-- The confirmed column mapping handed to finishImport. -/
structure FieldMapping where
  date : String
  amount : String
  description : String
  category : String

/-- A raw CSV row: column header to raw string value (a missing column
    behaves like an empty value through the JS falsy fallbacks). -/
def RawRow : Type := List (String × String)

/-- row[k] || dflt. -/
def jsField (row : RawRow) (k : String) (dflt : String) : String :=
  jsOrString (row.lookup k) dflt

/-- replace(/[^0-9.-]/g, ...): keep only digits, dots and minus signs. -/
def cleanAmount (s : String) : List Char :=
  s.data.filter fun c => c.isDigit || c == '.' || c == '-'

/-- Value of a fractional digit string: fracVal "25" = 25/100. -/
def fracVal (ds : List Char) : ℚ :=
  ds.foldr (fun c q => (((c.toNat - 48 : ℕ) : ℚ) + q) / 10) 0

/-- Longest-prefix unsigned decimal parse: digits, optionally followed by a
    dot and more digits, or a dot followed by at least one digit. -/
def parseUnsigned (s : List Char) : Option ℚ :=
  let ds := s.takeWhile Char.isDigit
  let rest := s.dropWhile Char.isDigit
  if ds.isEmpty then
    match rest with
    | '.' :: r2 =>
      let fs := r2.takeWhile Char.isDigit
      if fs.isEmpty then none else some (fracVal fs)
    | _ => none
  else
    match rest with
    | '.' :: r2 => some ((digitsVal ds : ℚ) + fracVal (r2.takeWhile Char.isDigit))
    | _ => some (digitsVal ds)

/-- parseFloat on a string containing only digits, dots and minus signs:
    an optional leading minus sign, then the longest unsigned decimal
    prefix; none models NaN. -/
def parseFloatQ (s : List Char) : Option ℚ :=
  match s with
  | '-' :: r => (parseUnsigned r).map (fun q => -q)
  | _ => parseUnsigned s

/-- JS (value || dflt) on a numeric parse outcome: NaN (none) and 0 fall
    back to dflt. -/
def jsNumOr (o : Option ℚ) (dflt : ℚ) : ℚ :=
  match o with
  | none => dflt
  | some q => if q = 0 then dflt else q

/-- Normalization of one raw row inside finishImport; t is Date.now(),
    today the current ISO calendar date used when the date cell is empty,
    i the row index. -/
def normalizeRow (m : FieldMapping) (t : ℕ) (today : String) (i : ℕ)
    (row : RawRow) : Expense :=
  { id := mkId t i
  , date := jsField row m.date today
  , description := jsField row m.description "No Desc"
  , amount := jsNumOr ((parseFloatQ (cleanAmount (jsField row m.amount "0"))).map
      fun q => |q|) 0
  , category := jsField row m.category "Other"
  , account := "Imported" }

/-- The normalized batch produced by finishImport: map with index, then
    drop every record whose amount is not strictly positive. -/
def importBatch (m : FieldMapping) (rows : List RawRow) (t : ℕ)
    (today : String) : List Expense :=
  (rows.enum.map fun p => normalizeRow m t today p.1 p.2).filter
    fun e => decide (0 < e.amount)

/-- setExpenses(p => [...p, ...newEx]). -/
def appendBatch (s batch : List Expense) : List Expense := s ++ batch

/-- setExpenses([]) on purge. -/
def clearStore : List Expense := []

/-! Persistence: the localStorage key holding JSON.stringify(expenses). -/

/-- A JSON value tree. -/
inductive Json where
  | null : Json
  | bool : Bool → Json
  | num : ℚ → Json
  | str : String → Json
  | arr : List Json → Json
  | obj : List (String × Json) → Json

/-- The JSON object serialized for one record. -/
def encodeExpense (e : Expense) : Json :=
  .obj [("id", .str e.id), ("date", .str e.date),
        ("description", .str e.description), ("amount", .num e.amount),
        ("category", .str e.category), ("account", .str e.account)]

/-- Reading a JSON value back as a record; none when the value is not the
    serialized form of a record. -/
def decodeExpense : Json → Option Expense
  | .obj [("id", .str i), ("date", .str d), ("description", .str ds),
          ("amount", .num a), ("category", .str c), ("account", .str ac)] =>
    some ⟨i, d, ds, a, c, ac⟩
  | _ => none

/-- Reading a list of JSON values back as records; none when any element is
    not a serialized record. -/
def decodeList : List Json → Option (List Expense)
  | [] => some []
  | j :: js =>
    match decodeExpense j, decodeList js with
    | some e, some es => some (e :: es)
    | _, _ => none

/-- JSON.stringify of the whole store, at the level of the JSON value tree. -/
def persistStore (s : List Expense) : Json := .arr (s.map encodeExpense)

/-- Array.isArray. -/
def Json.isArr : Json → Bool
  | .arr _ => true
  | _ => false

/-- Elements of a JSON array. -/
def Json.arrElems : Json → List Json
  | .arr xs => xs
  | _ => []

/-- The initial-load effect. The input models localStorage.getItem combined
    with the outcome of JSON.parse: none = no saved value; some (.error ())
    = the saved text is malformed and JSON.parse threw; some (.ok j) = the
    text parsed to the value j. The output is the resulting store content
    (the array elements, installed wholesale without element validation)
    together with whether the catch block logged a load error. -/
def loadStore (saved : Option (Except Unit Json)) : List Json × Bool :=
  match saved with
  | none => ([], false)
  | some (.error _) => ([], true)
  | some (.ok j) => (if j.isArr then j.arrElems else [], false)

/-! Default column-mapping heuristic of the mapping dialog. -/

/-- Substring containment test on character lists, as String.includes. -/
def strContainsSub (s pat : List Char) : Bool :=
  (List.range (s.length + 1)).any fun i => pat.isPrefixOf (s.drop i)

/-- f.toLowerCase().includes(field). -/
def headerMatches (field : String) (f : String) : Bool :=
  strContainsSub (f.data.map Char.toLower) field.data

/-- The four canonical fields of the mapping dialog. -/
def canonicalFields : List String := ["date", "amount", "description", "category"]

/-- The pre-filled default selection for one canonical field:
    fields.find(f => f.toLowerCase().includes(field)) || fields[0]. -/
def defaultHeader (fields : List String) (field : String) : String :=
  jsOrString (fields.find? (headerMatches field)) (fields.headD "")

/-! Theorems. -/

/-- C3: for every record set, selected year and calendar month, the
    per-(year, month) sum computed by the seasonality view equals the
    corresponding cell value computed by the intensity-heatmap view: both
    run the identical filter-and-reduce over the same records. -/
theorem seasonality_heatmap_agree (expenses : List Expense) (y : ℤ) (m : ℕ) :
    seasonalityTotal expenses y m = heatmapCell expenses y m := rfl

lemma decodeExpense_encodeExpense (e : Expense) :
    decodeExpense (encodeExpense e) = some e := rfl

lemma decodeList_map_encode (l : List Expense) :
    decodeList (l.map encodeExpense) = some l := by
  induction l with
  | nil => rfl
  | cons e es ih => simp [decodeList, decodeExpense_encodeExpense, ih]

/-- C4: appending a normalized batch and reloading the store from its
    serialized persisted state reproduces the same ordered sequence of
    records: the reloaded raw elements are exactly the serialized records of
    the appended store, in order, and decode back to that very sequence. -/
theorem append_persist_reload_roundtrip (s batch : List Expense) :
    loadStore (some (.ok (persistStore (appendBatch s batch)))) =
      ((appendBatch s batch).map encodeExpense, false) ∧
    decodeList (loadStore (some (.ok (persistStore (appendBatch s batch))))).1 =
      some (s ++ batch) := by
  refine ⟨rfl, ?_⟩
  show decodeList ((appendBatch s batch).map encodeExpense) = some (s ++ batch)
  rw [decodeList_map_encode]
  rfl

/-- C8 (amended): when the persisted content is absent, is malformed JSON,
    or parses to a non-array value, the initial load leaves the store empty,
    and the failure is logged exactly in the malformed case; the load itself
    is a total function, so no error reaches the caller. (A JSON array,
    however, is installed wholesale without element validation; see the
    counterexample.) -/
theorem load_error_leaves_store_empty (saved : Option (Except Unit Json))
    (h : saved = none ∨ (∃ er : Unit, saved = some (.error er)) ∨
      ∃ j : Json, saved = some (.ok j) ∧ j.isArr = false) :
    (loadStore saved).1 = [] ∧
    ((loadStore saved).2 = true ↔ ∃ er : Unit, saved = some (.error er)) := by
  rcases h with rfl | ⟨er, rfl⟩ | ⟨j, rfl, hj⟩
  · simp [loadStore]
  · exact ⟨rfl, fun _ => ⟨(), rfl⟩, fun _ => rfl⟩
  · refine ⟨by simp [loadStore, hj], ?_⟩
    simp [loadStore]

/-- Witness for C8 at a concrete malformed persisted text. -/
theorem load_error_witness : (loadStore (some (Except.error ()))).1 = [] :=
  (load_error_leaves_store_empty (some (Except.error ()))
    (Or.inr (Or.inl ⟨(), rfl⟩))).1

/-- C8 counterexample: the persisted text parsing to the JSON array [0] is
    not a valid serialized sequence of records (its element decodes to no
    record, and it is the serialization of no store), yet the load installs
    its element instead of leaving the store empty. -/
theorem load_junk_array_counterexample :
    decodeList (loadStore (some (Except.ok (Json.arr [Json.num 0])))).1 = none ∧
    (¬ ∃ l : List Expense, Json.arr [Json.num 0] = persistStore l) ∧
    (loadStore (some (Except.ok (Json.arr [Json.num 0])))).1 ≠ [] := by
  refine ⟨rfl, ?_, ?_⟩
  · rintro ⟨l, hl⟩
    cases l with
    | nil => simp [persistStore] at hl
    | cons e es => simp [persistStore, encodeExpense] at hl
  · intro h
    have h2 : ([Json.num 0] : List Json) = [] := h
    simp at h2

/-- C1: normalization computes the amount as the absolute value of the
    decimal parse of the cleaned raw amount string (0 when the parse fails),
    a row whose parse fails or yields zero produces no record of the batch,
    and every record of an imported batch, hence every record ever appended
    to the store, has a strictly positive amount. -/
theorem normalization_amount_spec (m : FieldMapping) (rows : List RawRow)
    (t : ℕ) (today : String) :
    (∀ e ∈ importBatch m rows t today, 0 < e.amount) ∧
    (∀ i row, (normalizeRow m t today i row).amount =
      ((parseFloatQ (cleanAmount (jsField row m.amount "0"))).map
        fun q => |q|).getD 0) ∧
    (∀ i row,
      parseFloatQ (cleanAmount (jsField row m.amount "0")) = none ∨
        parseFloatQ (cleanAmount (jsField row m.amount "0")) = some 0 →
      normalizeRow m t today i row ∉ importBatch m rows t today) := by
  have h1 : ∀ e ∈ importBatch m rows t today, 0 < e.amount := by
    intro e he
    exact of_decide_eq_true (List.mem_filter.mp he).2
  have h2 : ∀ i row, (normalizeRow m t today i row).amount =
      ((parseFloatQ (cleanAmount (jsField row m.amount "0"))).map
        fun q => |q|).getD 0 := by
    intro i row
    show jsNumOr ((parseFloatQ (cleanAmount (jsField row m.amount "0"))).map
      fun q => |q|) 0 = _
    rcases parseFloatQ (cleanAmount (jsField row m.amount "0")) with _ | q
    · rfl
    · by_cases hq : |q| = 0
      · simp [jsNumOr, hq]
      · simp [jsNumOr, hq]
  refine ⟨h1, h2, ?_⟩
  intro i row hpar hmem
  have hpos := h1 _ hmem
  have hamt := h2 i row
  rcases hpar with h | h <;> rw [h] at hamt <;> simp at hamt <;>
    rw [hamt] at hpos <;> exact absurd hpos (lt_irrefl 0)

def mapEx : FieldMapping := ⟨"Date", "Amount", "Desc", "Cat"⟩

def rowEx : RawRow :=
  [("Date", "2024-01-05"), ("Amount", "$50"), ("Desc", "Coffee"), ("Cat", "Dining")]

/-- Witness for C1: the dollar-formatted row of the specification example is
    kept with amount 50 > 0. -/
theorem normalization_amount_witness :
    normalizeRow mapEx 0 "2024-06-01" 0 rowEx ∈
      importBatch mapEx [rowEx] 0 "2024-06-01" ∧
    0 < (normalizeRow mapEx 0 "2024-06-01" 0 rowEx).amount :=
  have hm : normalizeRow mapEx 0 "2024-06-01" 0 rowEx ∈
      importBatch mapEx [rowEx] 0 "2024-06-01" := by decide
  ⟨hm, (normalization_amount_spec mapEx [rowEx] 0 "2024-06-01").1 _ hm⟩

/-! Id generation: injectivity of the decimal rendering within one batch. -/

/-- Numeric value of a decimal digit character. -/
def digitOfChar (c : Char) : ℕ := c.toNat - 48

lemma digitOfChar_charOfDigit : ∀ d < 10, digitOfChar (charOfDigit d) = d := by decide

lemma map_digitOfChar_natChars (n : ℕ) :
    (natChars n).map digitOfChar =
      if n = 0 then [0] else (Nat.digits 10 n).reverse := by
  by_cases h0 : n = 0
  · subst h0
    simp only [natChars, if_pos rfl]
    decide
  · simp only [natChars, if_neg h0]
    rw [List.map_map]
    conv_rhs => rw [← List.map_id ((Nat.digits 10 n).reverse)]
    apply List.map_congr_left
    intro d hd
    have hdlt : d < 10 := Nat.digits_lt_base (by norm_num) (List.mem_reverse.mp hd)
    simp only [Function.comp_apply, id_eq]
    exact digitOfChar_charOfDigit d hdlt

lemma natChars_injective : Function.Injective natChars := by
  intro n m h
  have h2 := congrArg (List.map digitOfChar) h
  rw [map_digitOfChar_natChars, map_digitOfChar_natChars] at h2
  by_cases hn : n = 0 <;> by_cases hm : m = 0
  · rw [hn, hm]
  · exfalso
    rw [if_pos hn, if_neg hm] at h2
    have hd : [0] = Nat.digits 10 m := by
      simpa using congrArg List.reverse h2
    have hof := Nat.ofDigits_digits 10 m
    rw [← hd] at hof
    exact hm (by simpa [Nat.ofDigits] using hof.symm)
  · exfalso
    rw [if_neg hn, if_pos hm] at h2
    have hd : [0] = Nat.digits 10 n := by
      simpa using congrArg List.reverse h2.symm
    have hof := Nat.ofDigits_digits 10 n
    rw [← hd] at hof
    exact hn (by simpa [Nat.ofDigits] using hof.symm)
  · rw [if_neg hn, if_neg hm] at h2
    have hd : Nat.digits 10 n = Nat.digits 10 m := by
      simpa using congrArg List.reverse h2
    have hof1 := Nat.ofDigits_digits 10 n
    have hof2 := Nat.ofDigits_digits 10 m
    rw [← hof1, ← hof2, hd]

lemma mkId_inj_right {t i j : ℕ} (h : mkId t i = mkId t j) : i = j := by
  have hdata : "txn-".data ++ (natChars t ++ '-' :: natChars i) =
      "txn-".data ++ (natChars t ++ '-' :: natChars j) := congrArg String.data h
  have h1 := List.append_cancel_left hdata
  have h2 := List.append_cancel_left h1
  have h3 : natChars i = natChars j := by injection h2
  exact natChars_injective h3

/-- C5 (amended): the ids generated within one imported batch are pairwise
    distinct (the row index is part of the id). Uniqueness for the lifetime
    of the store does not hold in general: two imports sharing a timestamp
    reuse the same ids, see the counterexample. -/
theorem batch_ids_nodup (m : FieldMapping) (rows : List RawRow) (t : ℕ)
    (today : String) :
    ((importBatch m rows t today).map Expense.id).Nodup := by
  have h0 : (rows.enum.map Prod.fst).Pairwise (· ≠ ·) := by
    rw [List.enum_map_fst]
    exact List.nodup_range rows.length
  rw [List.pairwise_map] at h0
  have h1 : (rows.enum.map fun p => normalizeRow m t today p.1 p.2).Pairwise
      (fun a b => a.id ≠ b.id) := by
    rw [List.pairwise_map]
    exact h0.imp fun hne heq => hne (mkId_inj_right heq)
  have h2 := h1.filter (fun e => decide (0 < e.amount))
  show ((importBatch m rows t today).map Expense.id).Pairwise (· ≠ ·)
  rw [List.pairwise_map]
  exact h2

def mapC : FieldMapping := ⟨"d", "a", "s", "c"⟩

def rowC : RawRow := [("d", "2024-01-05"), ("a", "5"), ("s", "x"), ("c", "Other")]

/-- The store after two one-row imports that share the timestamp 0. -/
def dupStore : List Expense :=
  appendBatch (appendBatch clearStore (importBatch mapC [rowC] 0 "2024-06-01"))
    (importBatch mapC [rowC] 0 "2024-06-01")

/-- C5 counterexample: a store reached by two appends whose imports share a
    timestamp holds two records with the identical id txn-0-0, so id
    uniqueness does not hold for the lifetime of the store. -/
theorem id_collision_counterexample :
    dupStore.length = 2 ∧ ¬ (dupStore.map Expense.id).Nodup := by decide

/-! Pace of spending: the cumulative array at the last sampled day. -/

lemma sumAmounts_nil : sumAmounts [] = 0 := rfl

lemma sumAmounts_cons (e : Expense) (l : List Expense) :
    sumAmounts (e :: l) = e.amount + sumAmounts l := by
  simp [sumAmounts]

lemma sumAmounts_filter_or (p q : Expense → Bool) (l : List Expense)
    (hdisj : ∀ e, ¬(p e = true ∧ q e = true)) :
    sumAmounts (l.filter fun e => p e || q e) =
      sumAmounts (l.filter p) + sumAmounts (l.filter q) := by
  induction l with
  | nil => simp [sumAmounts]
  | cons e l ih =>
    by_cases hp : p e = true
    · have hq : q e = false :=
        eq_false_of_ne_true fun hh => hdisj e ⟨hp, hh⟩
      simp [List.filter_cons, hp, hq, sumAmounts_cons, ih, add_assoc]
    · have hp2 : p e = false := eq_false_of_ne_true hp
      by_cases hq : q e = true
      · simp [List.filter_cons, hp2, hq, sumAmounts_cons, ih]
        ring
      · have hq2 : q e = false := eq_false_of_ne_true hq
        simp [List.filter_cons, hp2, hq2, sumAmounts_cons, ih]

lemma paceDayTotal_eq (expenses : List Expense) (y : ℤ) (d : ℕ) :
    paceDayTotal expenses y d =
      sumAmounts ((expenses.filter fun e => decide (yearOf e = some y)).filter
        fun e => decide (dayOf e = some d)) := rfl

lemma paceCumul_eq_sum_le (expenses : List Expense) (y : ℤ) :
    ∀ d : ℕ, paceCumul expenses y d =
      sumAmounts ((expenses.filter fun e => decide (yearOf e = some y)).filter
        fun e => (dayOf e).any fun x => decide (x ≤ d))
  | 0 => by
    show paceDayTotal expenses y 0 = _
    rw [paceDayTotal_eq]
    congr 1
    apply List.filter_congr
    intro e _
    rcases h : dayOf e with _ | x
    · simp
    · simp [h, Nat.le_zero]
  | d + 1 => by
    show paceCumul expenses y d + paceDayTotal expenses y (d + 1) = _
    rw [paceCumul_eq_sum_le expenses y d, paceDayTotal_eq,
      ← sumAmounts_filter_or _ _ _ ?disj]
    case disj =>
      intro e ⟨h1, h2⟩
      rw [decide_eq_true_eq] at h2
      rw [h2] at h1
      simp at h1
    congr 1
    apply List.filter_congr
    intro e _
    rcases h : dayOf e with _ | x
    · simp
    · simp only [h, Option.any_some, Option.some.injEq, ← Bool.decide_or,
        decide_eq_decide]
      omega

/-- C2 (amended): the pace-of-spending sampled days end at day 365, and the
    cumulative value there equals the total of that year's records whose day
    of year is at most 365 (so a record on day 366, December 31 of a leap
    year, is excluded); the chart entry agrees with this total within the
    rounding tolerance 1/2. -/
theorem pace_last_sample_spec (expenses : List Expense) (y : ℤ) :
    paceSampleDays.getLast? = some 365 ∧
    paceCumul expenses y 365 =
      sumAmounts ((expenses.filter fun e => decide (yearOf e = some y)).filter
        fun e => (dayOf e).any fun x => decide (x ≤ 365)) ∧
    |paceEntry expenses y 365 - paceCumul expenses y 365| ≤ 1 / 2 := by
  refine ⟨by decide, paceCumul_eq_sum_le expenses y 365, ?_⟩
  have habs := abs_sub_round (paceCumul expenses y 365)
  rw [abs_sub_comm] at habs
  exact habs

/-- The leap-day record: December 31 of the leap year 2024 is day 366. -/
def leapRec : Expense := ⟨"x", "2024-12-31", "d", 100, "Other", "Imported"⟩

def leapEx : List Expense := [leapRec]

/-- C2 counterexample: for the store holding one 100-valued record dated
    2024-12-31 (day 366 of a leap year), the year total is 100 but the
    value at the last sampled day (365) is 0, so the last sampled value does
    not equal the sum of all of that year's transaction amounts within any
    rounding tolerance below 100. -/
theorem pace_leap_day_counterexample :
    dayOf leapRec = some 366 ∧
    sumAmounts (leapEx.filter fun e => decide (yearOf e = some 2024)) = 100 ∧
    paceEntry leapEx 2024 365 = 0 ∧
    ¬ |paceEntry leapEx 2024 365 -
        sumAmounts (leapEx.filter fun e => decide (yearOf e = some 2024))| ≤ 1 / 2 := by
  have hfil : (leapEx.filter fun e => decide (yearOf e = some 2024)) = leapEx := rfl
  have h2 : sumAmounts (leapEx.filter fun e => decide (yearOf e = some 2024)) = 100 := by
    rw [hfil]
    norm_num [leapEx, sumAmounts, leapRec]
  have h3 : paceEntry leapEx 2024 365 = 0 := by
    have hc := paceCumul_eq_sum_le leapEx 2024 365
    have hfil2 : ((leapEx.filter fun e => decide (yearOf e = some 2024)).filter
        fun e => (dayOf e).any fun x => decide (x ≤ 365)) = [] := rfl
    rw [hfil2] at hc
    show roundTo0 (paceCumul leapEx 2024 365) = 0
    rw [hc]
    norm_num [sumAmounts, roundTo0]
  refine ⟨by decide, h2, h3, ?_⟩
  rw [h2, h3]
  norm_num

/-! Transaction distribution: the five-number summary. -/

lemma getD_mem_of_lt {α : Type _} {l : List α} {n : ℕ} (d : α)
    (h : n < l.length) : l.getD n d ∈ l := by
  rw [List.getD_eq_getElem?_getD, List.getElem?_eq_getElem h]
  simp only [Option.getD_some]
  exact List.getElem_mem h

lemma sorted_getD_zero_le {l : List ℚ} (hs : l.Sorted (· ≤ ·)) {x : ℚ}
    (hx : x ∈ l) : l.getD 0 0 ≤ x := by
  cases l with
  | nil => cases hx
  | cons a t =>
    rcases List.mem_cons.mp hx with rfl | hmem
    · simp
    · simpa using List.rel_of_sorted_cons hs x hmem

lemma sorted_le_getD_last {l : List ℚ} (hs : l.Sorted (· ≤ ·)) {x : ℚ}
    (hx : x ∈ l) : x ≤ l.getD (l.length - 1) 0 := by
  induction l with
  | nil => cases hx
  | cons a t ih =>
    cases t with
    | nil =>
      rcases List.mem_cons.mp hx with rfl | h2
      · simp
      · cases h2
    | cons b t2 =>
      have hlen : (a :: b :: t2).length - 1 = ((b :: t2).length - 1) + 1 := by
        simp
      rw [hlen, List.getD_cons_succ]
      rcases List.mem_cons.mp hx with rfl | hmem
      · have hmem2 : (b :: t2).getD ((b :: t2).length - 1) 0 ∈ b :: t2 :=
          getD_mem_of_lt 0 (by simp)
        exact List.rel_of_sorted_cons hs _ hmem2
      · exact ih hs.of_cons hmem

/-- C7: for a year with at least one transaction, the box-plot datum is
    exactly (min, sorted at n/4, sorted at n/2, sorted at 3n/4, max) where
    sorted is the ascending sort (characterized as a sorted permutation) of
    that year's per-transaction amounts, the indices use floor division, and
    the first and last sorted entries bound every amount of the year. -/
theorem boxplot_five_number_spec (expenses : List Expense) (y : ℤ)
    (h : yearAmounts expenses y ≠ []) :
    ∃ l : List ℚ, (yearAmounts expenses y).Perm l ∧ l.Sorted (· ≤ ·) ∧
      (∀ x ∈ yearAmounts expenses y,
        l.getD 0 0 ≤ x ∧ x ≤ l.getD ((yearAmounts expenses y).length - 1) 0) ∧
      transactionBoxPlot expenses y =
        ⟨l.getD 0 0, l.getD ((yearAmounts expenses y).length / 4) 0,
         l.getD ((yearAmounts expenses y).length / 2) 0,
         l.getD ((yearAmounts expenses y).length * 3 / 4) 0,
         l.getD ((yearAmounts expenses y).length - 1) 0⟩ := by
  have hlen : ((yearAmounts expenses y).mergeSort
      (fun a b => decide (a ≤ b))).length = (yearAmounts expenses y).length :=
    List.length_mergeSort _
  have hsorted : ((yearAmounts expenses y).mergeSort
      (fun a b => decide (a ≤ b))).Sorted (· ≤ ·) := by
    have hp := @List.sorted_mergeSort ℚ (fun a b => decide (a ≤ b))
      (fun a b c h1 h2 => by
        rw [decide_eq_true_eq] at h1 h2 ⊢
        exact le_trans h1 h2)
      (fun a b => by
        rcases le_total a b with hab | hab <;> simp [hab])
      (yearAmounts expenses y)
    exact hp.imp fun hh => of_decide_eq_true hh
  refine ⟨(yearAmounts expenses y).mergeSort (fun a b => decide (a ≤ b)),
    (List.mergeSort_perm _ _).symm, hsorted, ?_, ?_⟩
  · intro x hx
    have hx2 : x ∈ (yearAmounts expenses y).mergeSort
        (fun a b => decide (a ≤ b)) := List.mem_mergeSort.mpr hx
    refine ⟨sorted_getD_zero_le hsorted hx2, ?_⟩
    have := sorted_le_getD_last hsorted hx2
    rwa [hlen] at this
  · have hne : ¬((yearAmounts expenses y).length = 0) := by
      simpa [List.length_eq_zero] using h
    rw [transactionBoxPlot, getBoxPlotData, if_neg hne]
    simp only [List.length_mergeSort]

def boxRec : Expense := ⟨"w", "2024-03-05", "d", 7, "Other", "Imported"⟩

/-- Witness for C7 at a one-record year. -/
theorem boxplot_witness :
    yearAmounts [boxRec] 2024 ≠ [] ∧
    (∃ l : List ℚ, (yearAmounts [boxRec] 2024).Perm l ∧ l.Sorted (· ≤ ·) ∧
      (∀ x ∈ yearAmounts [boxRec] 2024,
        l.getD 0 0 ≤ x ∧ x ≤ l.getD ((yearAmounts [boxRec] 2024).length - 1) 0) ∧
      transactionBoxPlot [boxRec] 2024 =
        ⟨l.getD 0 0, l.getD ((yearAmounts [boxRec] 2024).length / 4) 0,
         l.getD ((yearAmounts [boxRec] 2024).length / 2) 0,
         l.getD ((yearAmounts [boxRec] 2024).length * 3 / 4) 0,
         l.getD ((yearAmounts [boxRec] 2024).length - 1) 0⟩) :=
  ⟨by decide, boxplot_five_number_spec [boxRec] 2024 (by decide)⟩

/-! Default column-mapping heuristic. -/

/-- C9: for each canonical field, the pre-filled default selects the first
    detected header whose lowercased text contains the field name as a
    substring (stated through the first matching decomposition of the header
    list), and when no header matches it selects the first detected header. -/
theorem default_mapping_spec (fields : List String) (field : String)
    (hf : field ∈ canonicalFields) :
    (∀ f pre post, fields = pre ++ f :: post → headerMatches field f = true →
      (∀ g ∈ pre, headerMatches field g = false) →
      defaultHeader fields field = f) ∧
    ((∀ f ∈ fields, headerMatches field f = false) →
      defaultHeader fields field = fields.headD "") := by
  have hfe : headerMatches field "" = false := by
    simp only [canonicalFields, List.mem_cons, List.not_mem_nil, or_false] at hf
    rcases hf with rfl | rfl | rfl | rfl <;> decide
  constructor
  · intro f pre post hsplit hmatch hpre
    have hfind : fields.find? (headerMatches field) = some f := by
      apply List.find?_eq_some.mpr
      exact ⟨hmatch, pre, post, hsplit, fun a ha => by simp [hpre a ha]⟩
    have hne : f ≠ "" := by
      intro h0
      rw [h0, hfe] at hmatch
      exact Bool.noConfusion hmatch
    simp [defaultHeader, hfind, jsOrString, hne]
  · intro hall
    have hfind : fields.find? (headerMatches field) = none :=
      List.find?_eq_none.mpr fun x hx => by simp [hall x hx]
    simp [defaultHeader, hfind, jsOrString]

/-- Witness for C9: the header Transaction Date is picked for the field
    date ahead of Amount, by lowercased substring match. -/
theorem default_mapping_witness :
    defaultHeader ["Transaction Date", "Amount"] "date" = "Transaction Date" :=
  (default_mapping_spec ["Transaction Date", "Amount"] "date" (by decide)).1
    "Transaction Date" [] ["Amount"] rfl (by decide) (by decide)

/-! Category comparison. -/

lemma lookup_graph (g : ℤ → ℚ) :
    ∀ (ys : List ℤ) (y : ℤ), y ∈ ys →
      (ys.map fun x => (x, g x)).lookup y = some (g y)
  | [], _, h => absurd h (List.not_mem_nil _)
  | x :: ys, y, h => by
    by_cases hxy : y = x
    · subst hxy
      simp [List.lookup]
    · have hmem : y ∈ ys := by
        rcases List.mem_cons.mp h with h1 | h2
        · exact absurd h1 hxy
        · exact h2
      have hbeq : (y == x) = false := by
        simp [hxy]
      simp [List.lookup, hbeq, lookup_graph g ys y hmem]

lemma rowVal_catRowOf (expenses : List Expense) (years : List ℤ) (cat : String)
    {y : ℤ} (hy : y ∈ years) :
    rowVal (catRowOf expenses years cat) y = catTotal expenses cat y := by
  simp [rowVal, catRowOf, lookup_graph (catTotal expenses cat) years y hy]

lemma mem_catcomp_iff (expenses : List Expense) (years : List ℤ) (r : CatRow) :
    r ∈ categoryComparisonData expenses years ↔
      (∃ cat ∈ CATEGORIES, catRowOf expenses years cat = r) ∧
      ∃ y ∈ years, 0 < rowVal r y := by
  unfold categoryComparisonData
  rw [List.mem_mergeSort, List.mem_filter]
  simp only [List.mem_map, List.any_eq_true, decide_eq_true_eq]

/-- C6 (amended): for a nonempty selected-years list headed by the most
    recent year, the category-comparison view contains exactly the
    categories of the fixed enumeration whose rounded total is strictly
    positive in at least one selected year, each row carries the per-year
    rounded sums, and the rows are pairwise ordered descending by the most
    recent selected year's total. -/
theorem category_comparison_spec (expenses : List Expense) (years : List ℤ)
    (y0 : ℤ) (rest : List ℤ) (hyears : years = y0 :: rest)
    (hmax : ∀ y ∈ years, y ≤ y0) :
    (∀ cat : String,
      (∃ r ∈ categoryComparisonData expenses years, r.category = cat) ↔
      (cat ∈ CATEGORIES ∧ ∃ y ∈ years, 0 < catTotal expenses cat y)) ∧
    (∀ r ∈ categoryComparisonData expenses years,
      r.totals = years.map fun y => (y, catTotal expenses r.category y)) ∧
    (categoryComparisonData expenses years).Pairwise
      (fun a b => rowVal b y0 ≤ rowVal a y0) := by
  refine ⟨?_, ?_, ?_⟩
  · intro cat
    constructor
    · rintro ⟨r, hr, hcat⟩
      rcases (mem_catcomp_iff _ _ _).mp hr with ⟨⟨c, hc, hrc⟩, y, hy, hpos⟩
      have hcc : c = cat := by
        rw [← hrc] at hcat
        exact hcat
      subst hcc
      rw [← hrc, rowVal_catRowOf _ _ _ hy] at hpos
      exact ⟨hc, y, hy, hpos⟩
    · rintro ⟨hcat, y, hy, hpos⟩
      refine ⟨catRowOf expenses years cat, ?_, rfl⟩
      apply (mem_catcomp_iff _ _ _).mpr
      refine ⟨⟨cat, hcat, rfl⟩, y, hy, ?_⟩
      rw [rowVal_catRowOf _ _ _ hy]
      exact hpos
  · intro r hr
    rcases (mem_catcomp_iff _ _ _).mp hr with ⟨⟨c, hc, hrc⟩, _⟩
    rw [← hrc]
    rfl
  · subst hyears
    have hp := @List.sorted_mergeSort CatRow
      (fun a b => decide (rowVal b ((y0 :: rest).headD 0) ≤
        rowVal a ((y0 :: rest).headD 0)))
      (fun a b c h1 h2 => by
        rw [decide_eq_true_eq] at h1 h2 ⊢
        exact le_trans h2 h1)
      (fun a b => by
        simp only [List.headD_cons]
        rcases le_total (rowVal b y0) (rowVal a y0) with hab | hab <;>
          simp [hab])
      ((CATEGORIES.map (catRowOf expenses (y0 :: rest))).filter fun r =>
        (y0 :: rest).any fun y => decide (0 < rowVal r y))
    exact hp.imp fun hh => by simpa using of_decide_eq_true hh

def rentRec : Expense := ⟨"r", "2023-05-10", "d", 1200, "Rent", "Imported"⟩

/-- Witness for C6: with a 1200-valued Rent record in 2023 and the selected
    years 2024, 2023, the view has a Rent row even though 2024 totals 0. -/
theorem category_comparison_witness :
    ∃ r ∈ categoryComparisonData [rentRec] [2024, 2023], r.category = "Rent" := by
  apply ((category_comparison_spec [rentRec] [2024, 2023] 2024 [2023] rfl
    (by decide)).1 "Rent").mpr
  refine ⟨by decide, 2023, by decide, ?_⟩
  have hfil : ([rentRec].filter fun e =>
      decide (e.category = "Rent" ∧ yearOf e = some 2023)) = [rentRec] := rfl
  show 0 < roundTo2 (sumAmounts ([rentRec].filter fun e =>
    decide (e.category = "Rent" ∧ yearOf e = some 2023)))
  rw [hfil]
  norm_num [sumAmounts, rentRec, roundTo2, round_eq]

def fooRec : Expense := ⟨"f", "2024-02-03", "d", 5, "Foo", "Imported"⟩

lemma catTotal_fooRec (cat : String) (h : cat ≠ "Foo") (y : ℤ) :
    catTotal [fooRec] cat y = 0 := by
  have hne : fooRec.category ≠ cat := fun hh => h (by rw [← hh]; rfl)
  have hfil : ([fooRec].filter fun e =>
      decide (e.category = cat ∧ yearOf e = some y)) = [] := by
    simp [List.filter, hne]
  show roundTo2 (sumAmounts ([fooRec].filter fun e =>
    decide (e.category = cat ∧ yearOf e = some y))) = 0
  rw [hfil]
  norm_num [sumAmounts, roundTo2]

/-- C6 counterexample: a stored record with the free-text category Foo and
    amount 5 in the selected year 2024 has a nonzero (category, year) total,
    yet the category-comparison view is empty: the view does not contain
    every category whose total is nonzero in a selected year. -/
theorem category_comparison_counterexample :
    catTotal [fooRec] "Foo" 2024 = 5 ∧
    categoryComparisonData [fooRec] [2024] = [] := by
  constructor
  · have hfil : ([fooRec].filter fun e =>
        decide (e.category = "Foo" ∧ yearOf e = some 2024)) = [fooRec] := rfl
    show roundTo2 (sumAmounts ([fooRec].filter fun e =>
      decide (e.category = "Foo" ∧ yearOf e = some 2024))) = 5
    rw [hfil]
    norm_num [sumAmounts, fooRec, roundTo2, round_eq]
  · rw [List.eq_nil_iff_forall_not_mem]
    intro r hr
    rcases (mem_catcomp_iff _ _ _).mp hr with ⟨⟨c, hc, hrc⟩, y, hy, hpos⟩
    have hy24 : y = 2024 := by simpa using hy
    subst hy24
    have hcne : c ≠ "Foo" := by
      intro hh
      rw [hh] at hc
      revert hc
      decide
    rw [← hrc, rowVal_catRowOf _ _ _ hy, catTotal_fooRec c hcne 2024] at hpos
    exact lt_irrefl 0 hpos

/-! Categories outside the fixed enumeration. -/

lemma catTotal_cons_other {e : Expense} {cat : String} (h : e.category ≠ cat)
    (expenses : List Expense) (y : ℤ) :
    catTotal (e :: expenses) cat y = catTotal expenses cat y := by
  simp [catTotal, List.filter_cons, h]

/-- C10: every row of the category-comparison view carries a category of
    the fixed 13-element enumeration, and a stored record whose category
    lies outside the enumeration contributes to no row: dropping it leaves
    the whole view unchanged. -/
theorem category_outside_enum_spec (e : Expense) (expenses : List Expense)
    (years : List ℤ) (h : e.category ∉ CATEGORIES) :
    categoryComparisonData (e :: expenses) years =
      categoryComparisonData expenses years ∧
    ∀ r ∈ categoryComparisonData (e :: expenses) years,
      r.category ∈ CATEGORIES := by
  have hrow : ∀ cat ∈ CATEGORIES,
      catRowOf (e :: expenses) years cat = catRowOf expenses years cat := by
    intro cat hc
    have hne : e.category ≠ cat := fun hh => h (by rw [hh]; exact hc)
    unfold catRowOf
    congr 1
    apply List.map_congr_left
    intro y _
    rw [catTotal_cons_other hne]
  constructor
  · unfold categoryComparisonData
    rw [List.map_congr_left hrow]
  · intro r hr
    rcases (mem_catcomp_iff _ _ _).mp hr with ⟨⟨c, hc, hrc⟩, _⟩
    rw [← hrc]
    exact hc

/-- Witness for C10: a record with the out-of-enumeration category Foo
    yields the same view as the empty store. -/
theorem category_outside_enum_witness :
    categoryComparisonData [fooRec] [2024] =
      categoryComparisonData ([] : List Expense) [2024] :=
  (category_outside_enum_spec fooRec [] [2024] (by decide)).1

end YoYFinance
